import Mathlib

/-!
Shallow embedding of the railguard pipeline (Go package `railguard`):
error taxonomy and retry classifier, retry/backoff policy, the JSON
structural schema validator, the option-based constructor, and the
`Guard.Run` orchestrator.  Machine arithmetic conventions: Go
`time.Duration` values (int64 nanoseconds) are modelled as `Int`,
Go `float64` arithmetic is modelled exactly over `ℚ`, and the single
`rand.Float64()` draw made by `RetryConfig.delay` is passed in as an
explicit parameter `r` with `0 ≤ r < 1`.  Context cancellation and wall
clock time are not modelled: the ambient context is taken to be never
cancelled, and `Metadata.Duration` is omitted.
-/

namespace Railguard

/-! ### Error taxonomy (errors.go)

Go's `error` values that flow through the pipeline, as a tagged tree.
`base` stands for an arbitrary leaf error (`errors.New`), `canceled` and
`deadlineExceeded` for the two `context` sentinel errors.  Each wrapper
constructor mirrors one of the exported error structs; its `Unwrap`
method returns the wrapped cause.  `MaxRetriesError` has two cases so
that a nil and a non-nil `LastErr` are both representable. -/

inductive GoErr where
  | base (msg : String)
  | canceled
  | deadlineExceeded
  | detectionErr (detector : String) (cause : GoErr)
  | validationErr (validator : String) (cause : GoErr)
  | generationErr (cause : GoErr)
  | schemaErr (cause : GoErr)
  | maxRetriesNil (attempts : Int)
  | maxRetriesErr (attempts : Int) (lastErr : GoErr)
deriving DecidableEq, Repr

/-- Model of `errors.As(err, &detectionErr)`: walks the `Unwrap` chain and reports
whether some node is a `*DetectionError`. -/
def hasDetectionErr : GoErr → Bool
  | .detectionErr _ _ => true
  | .validationErr _ c => hasDetectionErr c
  | .generationErr c => hasDetectionErr c
  | .schemaErr c => hasDetectionErr c
  | .maxRetriesErr _ c => hasDetectionErr c
  | _ => false

/-- Model of `errors.Is(e, target)`: identity at each node of the `Unwrap` chain. -/
def errorsIs (e target : GoErr) : Bool :=
  if e = target then true
  else
    match e with
    | .detectionErr _ c => errorsIs c target
    | .validationErr _ c => errorsIs c target
    | .generationErr c => errorsIs c target
    | .schemaErr c => errorsIs c target
    | .maxRetriesErr _ c => errorsIs c target
    | _ => false

/-- The `fatalErrors` list from retry.go: errors that should never be retried. -/
def fatalErrors : List GoErr := [.canceled, .deadlineExceeded]

/-- The `shouldRetry` classifier from retry.go.  `none` models a nil Go error. -/
def shouldRetry : Option GoErr → Bool
  | none => false
  | some e =>
    if hasDetectionErr e then false
    else if fatalErrors.any (fun f => errorsIs e f) then false
    else true

/-! ### Retry policy (retry.go) -/

/-- Go `RetryConfig`: delays are `time.Duration` (int64 nanoseconds, here
`Int`), `Multiplier` and `Jitter` are `float64` (here `ℚ`). -/
structure RetryConfig where
  MaxAttempts : Int
  InitialDelay : Int
  MaxDelay : Int
  Multiplier : ℚ
  Jitter : ℚ
deriving DecidableEq, Repr

/-- Go `DefaultRetryConfig()` (100ms initial delay, 5s max delay, in ns). -/
def DefaultRetryConfig : RetryConfig :=
  { MaxAttempts := 3
    InitialDelay := 100000000
    MaxDelay := 5000000000
    Multiplier := 2
    Jitter := 1/10 }

/-- Go `RetryConfig.Validate`: `none` models a nil error (valid config). -/
def RetryConfig.validate (c : RetryConfig) : Option String :=
  if c.MaxAttempts < 1 then some "max attempts must be at least 1"
  else if c.InitialDelay < 0 then some "initial delay cannot be negative"
  else if c.MaxDelay < 0 then some "max delay cannot be negative"
  else if c.Multiplier < 1 then some "multiplier must be at least 1"
  else if c.Jitter < 0 ∨ c.Jitter > 1 then some "jitter must be between 0 and 1"
  else none

/-- Go's `int64(f)` conversion for `f : float64`: truncation toward zero. -/
def ratTrunc (q : ℚ) : Int :=
  if 0 ≤ q then ⌊q⌋ else -⌊-q⌋

/-- The uncapped exponential backoff of `RetryConfig.delay`:
`delay := float64(c.InitialDelay) * math.Pow(c.Multiplier, float64(attempt-1))`. -/
def rawDelay (c : RetryConfig) (attempt : Nat) : ℚ :=
  (c.InitialDelay : ℚ) * c.Multiplier ^ (attempt - 1)

/-- The cap step of `RetryConfig.delay`:
`if delay > float64(c.MaxDelay) then delay = float64(c.MaxDelay)`. -/
def capDelay (c : RetryConfig) (attempt : Nat) : ℚ :=
  if rawDelay c attempt > (c.MaxDelay : ℚ) then (c.MaxDelay : ℚ) else rawDelay c attempt

/-- The jitter step of `RetryConfig.delay`, applied to the capped value,
with `jitterRange := delay * c.Jitter` substituted:
`delay = delay - jitterRange + rand.Float64() * 2 * jitterRange`. -/
def jitterAdj (c : RetryConfig) (r : ℚ) (d : ℚ) : ℚ :=
  if c.Jitter > 0 then d - d * c.Jitter + r * 2 * (d * c.Jitter) else d

/-- Go `RetryConfig.delay(attempt)` from retry.go, with the single
`rand.Float64()` draw passed in as `r`.  The exponential backoff is
computed in `float64` (here exactly in `ℚ`), capped at `MaxDelay`,
jittered, and finally converted to `time.Duration` by truncation. -/
def RetryConfig.delay (c : RetryConfig) (attempt : Nat) (r : ℚ) : Int :=
  if attempt = 0 ∨ c.InitialDelay = 0 then 0
  else ratTrunc (jitterAdj c r (capDelay c attempt))

/-- Go `RetryConfig.backoff`: whether the call reaches the waiting `select`.
The source returns immediately (no wait) when the delay is zero; with a
never-cancelled context the wait always ends with a nil error, so only
the occurrence of a wait is observable here. -/
def RetryConfig.backoffWaits (c : RetryConfig) (attempt : Nat) (r : ℚ) : Bool :=
  if c.delay attempt r = 0 then false else true

/-- The quantity `base = min(maxDelay, initialDelay*multiplier^(a-1))`
of the spec, stated from its words for comparison with `RetryConfig.delay`. -/
def specBase (c : RetryConfig) (a : Nat) : ℚ :=
  min (c.MaxDelay : ℚ) ((c.InitialDelay : ℚ) * c.Multiplier ^ (a - 1))

/-! ### JSON values and the `encoding/json` stream decoder (schema.go)

`Schema.Unmarshal` builds a `json.Decoder` over the input bytes, calls
`Decode` once (with `DisallowUnknownFields` when strict), then treats
`dec.More()` as a trailing-content check.  The decoder is modelled in
two stages that are observably equivalent for error-vs-value behaviour:
a parser producing one `Json` value plus the unconsumed remainder, and
a binder mapping that value onto the captured struct shape.  Numbers
keep their source lexeme, as `encoding/json` re-parses the literal per
target field type. -/

inductive Json where
  | null
  | jbool (b : Bool)
  | num (lexeme : String)
  | str (s : String)
  | arr (items : List Json)
  | obj (members : List (String × Json))

/-- JSON whitespace per RFC 8259, as skipped by `encoding/json`. -/
def isJsonWs (c : Char) : Bool :=
  c = ' ' ∨ c = '\t' ∨ c = '\n' ∨ c = '\r'

def skipWs : List Char → List Char
  | [] => []
  | c :: rest => if isJsonWs c then skipWs rest else c :: rest

def hexDigit (c : Char) : Option Nat :=
  if '0' ≤ c ∧ c ≤ '9' then some (c.toNat - '0'.toNat)
  else if 'a' ≤ c ∧ c ≤ 'f' then some (c.toNat - 'a'.toNat + 10)
  else if 'A' ≤ c ∧ c ≤ 'F' then some (c.toNat - 'A'.toNat + 10)
  else none

def simpleEscape (c : Char) : Option Char :=
  if c = '"' then some '"'
  else if c = '\\' then some '\\'
  else if c = '/' then some '/'
  else if c = 'b' then some (Char.ofNat 8)
  else if c = 'f' then some (Char.ofNat 12)
  else if c = 'n' then some '\n'
  else if c = 'r' then some '\r'
  else if c = 't' then some '\t'
  else none

/-- Body of a JSON string after the opening quote: consumes up to and
including the closing quote and yields the decoded string. -/
def parseStringBody : List Char → String → Option (String × List Char)
  | [], _ => none
  | '"' :: rest, acc => some (acc, rest)
  | '\\' :: 'u' :: h1 :: h2 :: h3 :: h4 :: rest, acc =>
    match hexDigit h1, hexDigit h2, hexDigit h3, hexDigit h4 with
    | some a, some b, some c, some d =>
      parseStringBody rest (acc.push (Char.ofNat (((a * 16 + b) * 16 + c) * 16 + d)))
    | _, _, _, _ => none
  | '\\' :: c :: rest, acc =>
    match simpleEscape c with
    | some ch => parseStringBody rest (acc.push ch)
    | none => none
  | ['\\'], _ => none
  | c :: rest, acc =>
    if c.toNat < 32 then none else parseStringBody rest (acc.push c)

def takeDigits : List Char → String → String × List Char
  | [], acc => (acc, [])
  | c :: rest, acc =>
    if '0' ≤ c ∧ c ≤ '9' then takeDigits rest (acc.push c) else (acc, c :: rest)

/-- JSON number grammar (RFC 8259): `-? int frac? exp?`; yields the
lexeme.  `encoding/json` validates exactly this grammar. -/
def parseNumber (cs : List Char) : Option (String × List Char) :=
  let (neg, cs1) :=
    match cs with
    | '-' :: rest => (("-" : String), rest)
    | _ => (("" : String), cs)
  match cs1 with
  | [] => none
  | c :: rest =>
    if c = '0' then
      parseFracExp (neg.push '0') rest
    else if '1' ≤ c ∧ c ≤ '9' then
      let (ds, rest2) := takeDigits rest ((String.singleton c))
      parseFracExp (neg ++ ds) rest2
    else none
where
  parseFracExp (intPart : String) (cs : List Char) : Option (String × List Char) :=
    let step1 : Option (String × List Char) :=
      match cs with
      | '.' :: d :: rest =>
        if '0' ≤ d ∧ d ≤ '9' then
          let (ds, rest2) := takeDigits rest ((String.singleton d))
          some (intPart ++ "." ++ ds, rest2)
        else none
      | _ => some (intPart, cs)
    match step1 with
    | none => none
    | some (lex, cs2) =>
      match cs2 with
      | 'e' :: rest => parseExpTail lex "e" rest
      | 'E' :: rest => parseExpTail lex "E" rest
      | _ => some (lex, cs2)
  parseExpTail (lex : String) (e : String) (cs : List Char) : Option (String × List Char) :=
    let (sign, cs1) :=
      match cs with
      | '+' :: rest => (("+" : String), rest)
      | '-' :: rest => (("-" : String), rest)
      | _ => (("" : String), cs)
    match cs1 with
    | d :: rest =>
      if '0' ≤ d ∧ d ≤ '9' then
        let (ds, rest2) := takeDigits rest ((String.singleton d))
        some (lex ++ e ++ sign ++ ds, rest2)
      else none
    | [] => none

mutual

/-- Parse one JSON value (leading whitespace allowed), returning it with
the unconsumed remainder.  `fuel` only bounds recursion depth; it is
instantiated generously by `decodeJson`. -/
def parseValue : Nat → List Char → Option (Json × List Char)
  | 0, _ => none
  | fuel + 1, cs =>
    match skipWs cs with
    | 'n' :: 'u' :: 'l' :: 'l' :: rest => some (.null, rest)
    | 't' :: 'r' :: 'u' :: 'e' :: rest => some (.jbool true, rest)
    | 'f' :: 'a' :: 'l' :: 's' :: 'e' :: rest => some (.jbool false, rest)
    | '"' :: rest =>
      match parseStringBody rest "" with
      | some (s, rest2) => some (.str s, rest2)
      | none => none
    | '[' :: rest =>
      (match skipWs rest with
       | ']' :: rest2 => some (.arr [], rest2)
       | cs2 => parseItems fuel cs2 [])
    | '{' :: rest =>
      (match skipWs rest with
       | '}' :: rest2 => some (.obj [], rest2)
       | cs2 => parseMembers fuel cs2 [])
    | cs1 =>
      match parseNumber cs1 with
      | some (lex, rest) => some (.num lex, rest)
      | none => none

/-- Elements of a non-empty array, after `[` (and after each `,`). -/
def parseItems : Nat → List Char → List Json → Option (Json × List Char)
  | 0, _, _ => none
  | fuel + 1, cs, acc =>
    match parseValue fuel cs with
    | none => none
    | some (v, rest) =>
      match skipWs rest with
      | ',' :: rest2 => parseItems fuel rest2 (acc ++ [v])
      | ']' :: rest2 => some (.arr (acc ++ [v]), rest2)
      | _ => none

/-- Members of a non-empty object, after `{` (and after each `,`). -/
def parseMembers : Nat → List Char → List (String × Json) →
    Option (Json × List Char)
  | 0, _, _ => none
  | fuel + 1, cs, acc =>
    match skipWs cs with
    | '"' :: rest =>
      (match parseStringBody rest "" with
       | none => none
       | some (key, rest2) =>
         match skipWs rest2 with
         | ':' :: rest3 =>
           (match parseValue fuel rest3 with
            | none => none
            | some (v, rest4) =>
              match skipWs rest4 with
              | ',' :: rest5 => parseMembers fuel rest5 (acc ++ [(key, v)])
              | '}' :: rest5 => some (.obj (acc ++ [(key, v)]), rest5)
              | _ => none)
         | _ => none)
    | _ => none

end

/-- Go `json.Decoder.Decode`: read one JSON value from the front of the
data; `none` models a decode error (syntax error or EOF). -/
def decodeJson (data : String) : Option (Json × List Char) :=
  parseValue (data.length + 1) data.toList

/-- Go `json.Decoder.More()` after the one `Decode`: peeks at the next
non-whitespace byte; reports false at end of input and also when that
byte is `]` or `}` (it is meant for elements of an array or object
being streamed, not as an end-of-input check). -/
def jsonMore (rest : List Char) : Bool :=
  match skipWs rest with
  | [] => false
  | c :: _ => ¬(c = ']' ∨ c = '}')

/-! ### Structural schema (schema.go)

`NewSchema` captures the target struct's field layout by reflection; a
layout is modelled as the ordered list of JSON field names with their
expected kinds, restricted to the scalar kinds exercised by the
repository (`string`, `int`, `bool`).  Decoded values are the struct's
fields with their final contents. -/

inductive FieldType where
  | tstr
  | tint
  | tbool
deriving DecidableEq, Repr

structure Field where
  key : String
  type : FieldType
deriving DecidableEq, Repr

inductive FieldVal where
  | vstr (s : String)
  | vint (n : Int)
  | vbool (b : Bool)
deriving DecidableEq, Repr

/-- Go zero values, as left in a freshly `reflect.New`ed struct. -/
def zeroVal : FieldType → FieldVal
  | .tstr => .vstr ""
  | .tint => .vint 0
  | .tbool => .vbool false

/-- A decoded struct instance: each shape field with its content. -/
abbrev StructVal := List (String × FieldVal)

def defaults (fields : List Field) : StructVal :=
  fields.map fun f => (f.key, zeroVal f.type)

/-- ASCII lower-casing of one character, for case-insensitive field
matching. -/
def foldChar (c : Char) : Char :=
  if 'A' ≤ c ∧ c ≤ 'Z' then Char.ofNat (c.toNat + 32) else c

/-- Case-insensitive string comparison for field matching.  The source
compares JSON keys to field names per `bytes.EqualFold`, i.e. Unicode
simple case-folding; on two ASCII strings that equality coincides with
the ASCII fold implemented here (the non-ASCII fold classes, such as
the Kelvin sign against `k`, always involve a non-ASCII rune on one
side).  The unknown-field claims are therefore stated under an ASCII
side condition on field and key names. -/
def eqFold (s1 s2 : String) : Bool :=
  s1.data.map foldChar = s2.data.map foldChar

/-- Whether every character of a string is ASCII.  Restricted to ASCII
names, `eqFold` is exactly the source's Unicode simple-fold match. -/
def isAsciiStr (s : String) : Bool :=
  s.data.all fun c => c.toNat < 128

/-- Field lookup of `encoding/json`: an exact match on the JSON tag name is
preferred; otherwise the first case-insensitive match wins. -/
def findField (fields : List Field) (k : String) : Option Field :=
  match fields.find? (fun f => f.key = k) with
  | some f => some f
  | none => fields.find? (fun f => eqFold f.key k)

/-- Parse an integer literal the way `strconv.ParseInt(s, 10, 64)` does
for an `int` target field: an optional sign followed by digits only,
with the value required to fit in a signed 64-bit integer.  A
fractional part, an exponent, or an out-of-range magnitude is a decode
error. -/
def parseIntLexeme (lex : String) : Option Int :=
  let digits : List Char → Option Nat := fun ds =>
    if ds.isEmpty then none
    else ds.foldlM (fun acc c =>
      if '0' ≤ c ∧ c ≤ '9' then some (acc * 10 + (c.toNat - '0'.toNat)) else none) 0
  match lex.toList with
  | '-' :: rest =>
    match digits rest with
    | some n => if n ≤ 9223372036854775808 then some (-(n : Int)) else none
    | none => none
  | cs =>
    match digits cs with
    | some n => if n ≤ 9223372036854775807 then some ((n : Int)) else none
    | none => none

/-- Unmarshal one JSON value into one struct field.  `ok none` means the
value was JSON `null`, which `encoding/json` decodes as a no-op; a kind
mismatch is a decode error in both strict and non-strict mode. -/
def coerceField : FieldType → Json → Except String (Option FieldVal)
  | _, .null => .ok none
  | .tstr, .str s => .ok (some (.vstr s))
  | .tint, .num lex =>
    (match parseIntLexeme lex with
     | some n => .ok (some (.vint n))
     | none => .error ("cannot unmarshal number " ++ lex ++ " into int field"))
  | .tbool, .jbool b => .ok (some (.vbool b))
  | _, _ => .error "cannot unmarshal value into field of wrong kind"

/-- Store a decoded field content (later duplicate keys overwrite). -/
def setField : StructVal → String → FieldVal → StructVal
  | [], _, _ => []
  | (k, v) :: rest, key, nv =>
    if k = key then (k, nv) :: rest else (k, v) :: setField rest key nv

/-- Process the members of the top-level JSON object in order, as the
streaming decoder does: an unknown key is an error exactly in strict
mode (`DisallowUnknownFields`) and is skipped otherwise; a known key's
value is coerced to the field's kind. -/
def bindMembers (fields : List Field) (strict : Bool) :
    List (String × Json) → StructVal → Except String StructVal
  | [], acc => .ok acc
  | (k, v) :: rest, acc =>
    match findField fields k with
    | none =>
      if strict then .error ("unknown field " ++ k)
      else bindMembers fields strict rest acc
    | some f =>
      match coerceField f.type v with
      | .error e => .error e
      | .ok none => bindMembers fields strict rest acc
      | .ok (some fv) => bindMembers fields strict rest (setField acc f.key fv)

/-- The `Schema` struct: the captured target layout plus the strictness flag. -/
structure Schema where
  fields : List Field
  strict : Bool
deriving DecidableEq, Repr

/-- Go `NewSchema`: captures the layout and defaults to strict. -/
def NewSchema (fields : List Field) : Schema :=
  { fields := fields, strict := true }

/-- Go `Schema.WithStrict`. -/
def Schema.WithStrict (s : Schema) (strict : Bool) : Schema :=
  { s with strict := strict }

/-- Decode one already-parsed JSON value into the target struct: only a
JSON object (or `null`, a no-op that keeps the zero values) is accepted
for a struct target. -/
def decodeInto (s : Schema) : Json → Except String StructVal
  | .null => .ok (defaults s.fields)
  | .obj members => bindMembers s.fields s.strict members (defaults s.fields)
  | _ => .error "cannot unmarshal non-object value into struct"

/-- Go `Schema.Unmarshal(data)`: one `Decode` into a fresh instance of the
target type, then the `dec.More()` trailing-content check. -/
def Schema.Unmarshal (s : Schema) (data : String) : Except String StructVal :=
  match decodeJson data with
  | none => .error "failed to unmarshal JSON: syntax error or EOF"
  | some (v, rest) =>
    match decodeInto s v with
    | .error e => .error ("failed to unmarshal JSON: " ++ e)
    | .ok val => if jsonMore rest then .error "trailing data after JSON" else .ok val

/-- Go `Schema.Validate(data)`: decode and keep only pass/fail. -/
def Schema.validateData (s : Schema) (data : String) : Option String :=
  match s.Unmarshal data with
  | .ok _ => none
  | .error e => some e

/-! ### Guard and the Run pipeline (railguard.go)

Injected collaborators are pure functions: a detector or validator maps
the text to `none` (pass) or `some cause` (reject), and the generation
client maps its call index to an output or an error, so that test
doubles whose behaviour varies per attempt are expressible.  `Run` is
instrumented with a trace recording how many detectors were invoked and
how many times the client was called; in the source these counts are
observable through call counters on test doubles. -/

structure Detector where
  name : String
  detect : String → Option GoErr

structure ValidatorSpec where
  name : String
  validate : String → Option GoErr

/-- The generation client: one `Generate` call per invocation, indexed
by how many calls were made before it. -/
abbrev Client := Nat → Except GoErr String

structure Guard where
  client : Client
  detectors : List Detector
  validators : List ValidatorSpec
  schema : Option Schema
  retry : RetryConfig

/-- Outcome of `Guard.Run` plus the per-run metadata the claims need. -/
structure RunResult where
  Raw : String
  Parsed : Option StructVal
  Attempts : Int
deriving DecidableEq, Repr

/-- Invocation counts of the injected collaborators during one run. -/
structure RunTrace where
  detectorCalls : Nat
  genCalls : Nat
deriving DecidableEq, Repr

/-- Go `Guard.runDetectors`: first failure wraps as `DetectionError` and
short-circuits; also reports how many detectors were invoked. -/
def runDetectors (ds : List Detector) (prompt : String) : Option GoErr × Nat :=
  match ds with
  | [] => (none, 0)
  | d :: rest =>
    match d.detect prompt with
    | some e => (some (.detectionErr d.name e), 1)
    | none =>
      let (r, n) := runDetectors rest prompt
      (r, n + 1)

/-- Go `Guard.runValidators`: first failure wraps as `ValidationError`. -/
def runValidators (vs : List ValidatorSpec) (output : String) : Option GoErr :=
  match vs with
  | [] => none
  | v :: rest =>
    match v.validate output with
    | some e => some (.validationErr v.name e)
    | none => runValidators rest output

/-- Go `Guard.parseSchema`: `ok none` models the nil, nil return when no
schema is configured. -/
def Guard.parseSchema (g : Guard) (output : String) : Except String (Option StructVal) :=
  match g.schema with
  | none => .ok none
  | some s => (s.Unmarshal output).map some

/-- One iteration of the retry loop body: generate, validate, decode,
with each stage's failure wrapped as in `Guard.Run`.  `i` is the client
call index (one client call is made per iteration). -/
def attemptOutcome (g : Guard) (i : Nat) : Except GoErr (String × Option StructVal) :=
  match g.client i with
  | .error e => .error (.generationErr e)
  | .ok output =>
    match runValidators g.validators output with
    | some ve => .error ve
    | none =>
      match g.parseSchema output with
      | .error msg => .error (.schemaErr (.base msg))
      | .ok parsed => .ok (output, parsed)

/-- The `for attempt := 0; attempt < MaxAttempts` retry loop of
`Guard.Run`, with `fuel` the number of remaining iterations.  The
backoff wait before each retry cannot fail here because cancellation is
not modelled.  Also returns the number of client calls made. -/
def runLoop (g : Guard) : Nat → Nat → Option GoErr → Except GoErr RunResult × Nat
  | 0, _, lastErr =>
    (.error (match lastErr with
             | none => .maxRetriesNil g.retry.MaxAttempts
             | some e => .maxRetriesErr g.retry.MaxAttempts e), 0)
  | fuel + 1, attempt, _ =>
    match attemptOutcome g attempt with
    | .error e =>
      if shouldRetry (some e) then
        let (res, n) := runLoop g fuel (attempt + 1) (some e)
        (res, n + 1)
      else (.error e, 1)
    | .ok (output, parsed) =>
      (.ok { Raw := output, Parsed := parsed, Attempts := (attempt : Int) + 1 }, 1)

/-- Go `Guard.Run` (wall-clock duration and the overall timeout are not
modelled; the context is never cancelled). -/
def Guard.Run (g : Guard) (prompt : String) : Except GoErr RunResult × RunTrace :=
  match runDetectors g.detectors prompt with
  | (some e, dn) => (.error e, { detectorCalls := dn, genCalls := 0 })
  | (none, dn) =>
    let (res, gn) := runLoop g g.retry.MaxAttempts.toNat 0 none
    (res, { detectorCalls := dn, genCalls := gn })

/-! ### Options and the constructor (options.go, railguard.go)

Only the options the claims mention are modelled; each carries an
already well-formed payload, so the construction-time validation errors
of the remaining options do not arise. -/

inductive OptionCmd where
  | withClient
  | withSchema (fields : List Field)
  | withStrictSchema (strict : Bool)
deriving DecidableEq, Repr

structure GuardCfg where
  hasClient : Bool
  schema : Option Schema
  strictSchema : Bool
deriving DecidableEq, Repr

/-- Application of one functional option to the Guard under
construction.  `WithSchema` builds a fresh schema via `NewSchema`
(strict by default); `WithStrictSchema` flips the flag only on an
already-existing schema, and always records `strictSchema`. -/
def applyOption (g : GuardCfg) : OptionCmd → GuardCfg
  | .withClient => { g with hasClient := true }
  | .withSchema fields => { g with schema := some (NewSchema fields) }
  | .withStrictSchema b =>
    { g with
      schema := g.schema.map fun s => s.WithStrict b
      strictSchema := b }

/-- Go `New`: applies the options in order, then requires a client.  The
source's reconciliation branch
`if g.schema != nil && !g.strictSchema { ... }` has an empty body and
performs no action, so it contributes nothing here. -/
def New (opts : List OptionCmd) : Except GoErr GuardCfg :=
  let g := opts.foldl applyOption { hasClient := false, schema := none, strictSchema := false }
  if g.hasClient then .ok g else .error (.base "railguard: no client provided")

/-! ### Backoff arithmetic lemmas -/

lemma RetryConfig.valid_facts (c : RetryConfig) (h : c.validate = none) :
    1 ≤ c.MaxAttempts ∧ 0 ≤ c.InitialDelay ∧ 0 ≤ c.MaxDelay ∧
      1 ≤ c.Multiplier ∧ 0 ≤ c.Jitter ∧ c.Jitter ≤ 1 := by
  unfold RetryConfig.validate at h
  split_ifs at h with h1 h2 h3 h4 h5
  push_neg at h1 h2 h3 h4 h5
  exact ⟨by omega, by omega, by omega, h4, h5.1, h5.2⟩

lemma ratTrunc_nonneg_eq_floor (q : ℚ) (h : 0 ≤ q) : ratTrunc q = ⌊q⌋ := by
  unfold ratTrunc
  rw [if_pos h]

lemma ratTrunc_le (q : ℚ) (h : 0 ≤ q) : (ratTrunc q : ℚ) ≤ q := by
  rw [ratTrunc_nonneg_eq_floor q h]
  exact Int.floor_le q

lemma lt_ratTrunc (q : ℚ) (h : 0 ≤ q) : q - 1 < (ratTrunc q : ℚ) := by
  rw [ratTrunc_nonneg_eq_floor q h]
  exact Int.sub_one_lt_floor q

lemma capDelay_eq_specBase (c : RetryConfig) (a : Nat) :
    capDelay c a = specBase c a := by
  unfold capDelay specBase rawDelay
  rcases le_or_lt ((c.InitialDelay : ℚ) * c.Multiplier ^ (a - 1)) (c.MaxDelay : ℚ) with h | h
  · rw [if_neg (not_lt.mpr h), min_eq_right h]
  · rw [if_pos h, min_eq_left h.le]

lemma specBase_nonneg (c : RetryConfig) (a : Nat)
    (hI : 0 ≤ c.InitialDelay) (hM : 0 ≤ c.MaxDelay) (hMul : 1 ≤ c.Multiplier) :
    0 ≤ specBase c a := by
  have hIq : (0 : ℚ) ≤ (c.InitialDelay : ℚ) := by exact_mod_cast hI
  have hMq : (0 : ℚ) ≤ (c.MaxDelay : ℚ) := by exact_mod_cast hM
  have hpow : (0 : ℚ) ≤ c.Multiplier ^ (a - 1) :=
    pow_nonneg (le_trans zero_le_one hMul) _
  exact le_min hMq (mul_nonneg hIq hpow)

lemma jitterAdj_bounds (c : RetryConfig) (r d : ℚ)
    (hd : 0 ≤ d) (hJ0 : 0 ≤ c.Jitter) (hr0 : 0 ≤ r) (hr1 : r < 1) :
    d * (1 - c.Jitter) ≤ jitterAdj c r d ∧ jitterAdj c r d ≤ d * (1 + c.Jitter) := by
  unfold jitterAdj
  by_cases hJ : c.Jitter > 0
  · rw [if_pos hJ]
    constructor
    · nlinarith [mul_nonneg (mul_nonneg hr0 (mul_nonneg hd hJ0)) (by norm_num : (0:ℚ) ≤ 2)]
    · nlinarith [mul_nonneg hd hJ0]
  · rw [if_neg hJ]
    have hJz : c.Jitter = 0 := le_antisymm (not_lt.mp hJ) hJ0
    rw [hJz]
    constructor <;> nlinarith

lemma jitterAdj_nonneg (c : RetryConfig) (r d : ℚ)
    (hd : 0 ≤ d) (hJ0 : 0 ≤ c.Jitter) (hJ1 : c.Jitter ≤ 1) (hr0 : 0 ≤ r) (hr1 : r < 1) :
    0 ≤ jitterAdj c r d := by
  have h := (jitterAdj_bounds c r d hd hJ0 hr0 hr1).1
  nlinarith [mul_nonneg hd (by linarith : (0:ℚ) ≤ 1 - c.Jitter)]

/-- The heart of the two backoff claims: for a valid policy and a retry
attempt, the computed `time.Duration` is the toward-zero truncation of a
value in `[base*(1-j), base*(1+j))`, where `base` is the spec's capped
exponential backoff. -/
lemma delay_mem_interval (c : RetryConfig) (a : Nat) (r : ℚ)
    (hv : c.validate = none) (ha : 1 ≤ a) (hr0 : 0 ≤ r) (hr1 : r < 1) :
    specBase c a * (1 - c.Jitter) - 1 < (c.delay a r : ℚ) ∧
      (c.delay a r : ℚ) ≤ specBase c a * (1 + c.Jitter) := by
  obtain ⟨-, hI, hM, hMul, hJ0, hJ1⟩ := c.valid_facts hv
  have hB0 : 0 ≤ specBase c a := specBase_nonneg c a hI hM hMul
  by_cases hIz : c.InitialDelay = 0
  · have hd : c.delay a r = 0 := by
      unfold RetryConfig.delay
      rw [if_pos (Or.inr hIz)]
    have hBz : specBase c a = 0 := by
      unfold specBase
      rw [hIz]
      have hMq : (0 : ℚ) ≤ (c.MaxDelay : ℚ) := by exact_mod_cast hM
      push_cast
      rw [zero_mul, min_eq_right hMq]
    rw [hd, hBz]
    norm_num
  · have hne : ¬(a = 0 ∨ c.InitialDelay = 0) := by
      push_neg
      exact ⟨by omega, hIz⟩
    have hd : c.delay a r = ratTrunc (jitterAdj c r (specBase c a)) := by
      unfold RetryConfig.delay
      rw [if_neg hne, capDelay_eq_specBase]
    obtain ⟨hlo, hhi⟩ := jitterAdj_bounds c r (specBase c a) hB0 hJ0 hr0 hr1
    have ht0 : 0 ≤ jitterAdj c r (specBase c a) :=
      jitterAdj_nonneg c r (specBase c a) hB0 hJ0 hJ1 hr0 hr1
    rw [hd]
    constructor
    · calc specBase c a * (1 - c.Jitter) - 1 ≤ jitterAdj c r (specBase c a) - 1 := by linarith
        _ < (ratTrunc (jitterAdj c r (specBase c a)) : ℚ) := lt_ratTrunc _ ht0
    · calc (ratTrunc (jitterAdj c r (specBase c a)) : ℚ)
          ≤ jitterAdj c r (specBase c a) := ratTrunc_le _ ht0
        _ ≤ specBase c a * (1 + c.Jitter) := hhi

lemma delay_zero_of_initial_zero (c : RetryConfig) (a : Nat) (r : ℚ)
    (hIz : c.InitialDelay = 0) : c.delay a r = 0 := by
  unfold RetryConfig.delay
  rw [if_pos (Or.inr hIz)]

lemma backoff_no_wait_of_delay_zero (c : RetryConfig) (a : Nat) (r : ℚ)
    (h : c.delay a r = 0) : c.backoffWaits a r = false := by
  unfold RetryConfig.backoffWaits
  rw [if_pos h]

lemma delay_eq_floor_base_of_jitter_zero (c : RetryConfig) (a : Nat) (r : ℚ)
    (hv : c.validate = none) (ha : 1 ≤ a) (hJz : c.Jitter = 0) :
    c.delay a r = ⌊specBase c a⌋ := by
  obtain ⟨-, hI, hM, hMul, -, -⟩ := c.valid_facts hv
  have hB0 : 0 ≤ specBase c a := specBase_nonneg c a hI hM hMul
  by_cases hIz : c.InitialDelay = 0
  · have hd : c.delay a r = 0 := by
      unfold RetryConfig.delay
      rw [if_pos (Or.inr hIz)]
    have hBz : specBase c a = 0 := by
      unfold specBase
      rw [hIz]
      have hMq : (0 : ℚ) ≤ (c.MaxDelay : ℚ) := by exact_mod_cast hM
      push_cast
      rw [zero_mul, min_eq_right hMq]
    rw [hd, hBz]
    norm_num
  · have hne : ¬(a = 0 ∨ c.InitialDelay = 0) := by
      push_neg
      exact ⟨by omega, hIz⟩
    have hJnot : ¬(c.Jitter > 0) := by rw [hJz]; norm_num
    unfold RetryConfig.delay
    rw [if_neg hne, capDelay_eq_specBase]
    unfold jitterAdj
    rw [if_neg hJnot, ratTrunc_nonneg_eq_floor _ hB0]

/-! ### Claims about the backoff policy (C2, C8) -/

/-- A valid policy whose uncapped backoff already sits at `MaxDelay`,
with a jitter fraction of one half. -/
def cfgJitterAtCap : RetryConfig :=
  { MaxAttempts := 3, InitialDelay := 100, MaxDelay := 100, Multiplier := 1, Jitter := 1/2 }

/-- Claim C2 as stated is false: for the valid policy `cfgJitterAtCap`
and attempt 1, the jitter draw `r = 3/4` yields a delay of 125ns, which
exceeds `MaxDelay = 100`ns — the source applies jitter after the cap,
so the cap is not a bound on the returned delay. -/
theorem C2_counterexample_delay_exceeds_maxDelay :
    cfgJitterAtCap.validate = none ∧
      ((0 : ℚ) ≤ 3/4 ∧ (3/4 : ℚ) < 1) ∧
      cfgJitterAtCap.delay 1 (3/4) = 125 ∧
      ¬(cfgJitterAtCap.delay 1 (3/4) ≤ cfgJitterAtCap.MaxDelay) := by
  refine ⟨?_, ⟨by norm_num, by norm_num⟩, ?_, ?_⟩
  · norm_num [cfgJitterAtCap, RetryConfig.validate]
  · norm_num [cfgJitterAtCap, RetryConfig.delay, capDelay, rawDelay, jitterAdj, ratTrunc]
  · norm_num [cfgJitterAtCap, RetryConfig.delay, capDelay, rawDelay, jitterAdj, ratTrunc]

/-- Claim C2 amended: for every valid retry policy and attempt `a ≥ 1`,
the delay never exceeds `MaxDelay * (1 + Jitter)`; with a jitter
fraction of zero it never exceeds `MaxDelay` itself. -/
theorem C2_delay_bounded (c : RetryConfig) (a : Nat) (r : ℚ)
    (hv : c.validate = none) (ha : 1 ≤ a) (hr0 : 0 ≤ r) (hr1 : r < 1) :
    (c.delay a r : ℚ) ≤ (c.MaxDelay : ℚ) * (1 + c.Jitter) ∧
      (c.Jitter = 0 → c.delay a r ≤ c.MaxDelay) := by
  obtain ⟨-, hI, hM, hMul, hJ0, hJ1⟩ := c.valid_facts hv
  obtain ⟨hlo, hhi⟩ := delay_mem_interval c a r hv ha hr0 hr1
  have hBM : specBase c a ≤ (c.MaxDelay : ℚ) := min_le_left _ _
  have hB0 : 0 ≤ specBase c a := specBase_nonneg c a hI hM hMul
  constructor
  · calc (c.delay a r : ℚ) ≤ specBase c a * (1 + c.Jitter) := hhi
      _ ≤ (c.MaxDelay : ℚ) * (1 + c.Jitter) := by nlinarith
  · intro hJz
    have hq : (c.delay a r : ℚ) ≤ (c.MaxDelay : ℚ) := by
      rw [hJz] at hhi
      nlinarith
    exact_mod_cast hq

/-- Witness for `C2_delay_bounded` at the default policy, attempt 1,
jitter draw 0. -/
theorem C2_delay_bounded_witness :
    DefaultRetryConfig.validate = none ∧
      ((DefaultRetryConfig.delay 1 0 : ℚ) ≤
          (DefaultRetryConfig.MaxDelay : ℚ) * (1 + DefaultRetryConfig.Jitter) ∧
        (DefaultRetryConfig.Jitter = 0 → DefaultRetryConfig.delay 1 0 ≤ DefaultRetryConfig.MaxDelay)) :=
  ⟨by norm_num [DefaultRetryConfig, RetryConfig.validate],
    C2_delay_bounded DefaultRetryConfig 1 0
      (by norm_num [DefaultRetryConfig, RetryConfig.validate])
      (by norm_num) (by norm_num) (by norm_num)⟩

/-- A valid jitter-free policy whose backoff for attempt 2 is the
non-integral 4.5ns. -/
def cfgFractionalBase : RetryConfig :=
  { MaxAttempts := 1, InitialDelay := 3, MaxDelay := 100, Multiplier := 3/2, Jitter := 0 }

/-- Claim C8 as stated is false: for the valid policy
`cfgFractionalBase` with jitter 0, attempt 2 has
`base = 3 * (3/2)^1 = 9/2`, but the returned delay is the
`time.Duration` truncation 4, which is strictly below `base * (1 - j)`
and not equal to `base`. -/
theorem C8_counterexample_truncation_below_base :
    cfgFractionalBase.validate = none ∧
      cfgFractionalBase.Jitter = 0 ∧
      specBase cfgFractionalBase 2 = 9/2 ∧
      cfgFractionalBase.delay 2 0 = 4 ∧
      ¬((cfgFractionalBase.delay 2 0 : ℚ) = specBase cfgFractionalBase 2) ∧
      ¬(specBase cfgFractionalBase 2 * (1 - cfgFractionalBase.Jitter) ≤
          (cfgFractionalBase.delay 2 0 : ℚ)) := by
  have hd : cfgFractionalBase.delay 2 0 = 4 := by
    norm_num [cfgFractionalBase, RetryConfig.delay, capDelay, rawDelay, jitterAdj, ratTrunc]
  have hb : specBase cfgFractionalBase 2 = 9/2 := by
    norm_num [cfgFractionalBase, specBase]
  refine ⟨?_, by norm_num [cfgFractionalBase], hb, hd, ?_, ?_⟩
  · norm_num [cfgFractionalBase, RetryConfig.validate]
  · rw [hd, hb]
    norm_num
  · rw [hd, hb]
    norm_num [cfgFractionalBase]

/-- Claim C8 amended: for every valid retry policy, attempt `a ≥ 1` and
jitter draw `r ∈ [0,1)`, the returned delay is the whole-nanosecond
truncation of a value in `[base*(1-j), base*(1+j))`, so it lies in
`(base*(1-j) - 1, base*(1+j)]`; with `j = 0` it equals `⌊base⌋` exactly;
an `InitialDelay` of zero gives delay 0, and a delay of exactly zero
produces no wait in `backoff`. -/
theorem C8_delay_interval (c : RetryConfig) (a : Nat) (r : ℚ)
    (hv : c.validate = none) (ha : 1 ≤ a) (hr0 : 0 ≤ r) (hr1 : r < 1) :
    (specBase c a * (1 - c.Jitter) - 1 < (c.delay a r : ℚ) ∧
        (c.delay a r : ℚ) ≤ specBase c a * (1 + c.Jitter)) ∧
      (c.Jitter = 0 → c.delay a r = ⌊specBase c a⌋) ∧
      (c.InitialDelay = 0 → c.delay a r = 0) ∧
      (c.delay a r = 0 → c.backoffWaits a r = false) := by
  refine ⟨delay_mem_interval c a r hv ha hr0 hr1, ?_, ?_, ?_⟩
  · exact fun hJz => delay_eq_floor_base_of_jitter_zero c a r hv ha hJz
  · exact fun hIz => delay_zero_of_initial_zero c a r hIz
  · exact fun h => backoff_no_wait_of_delay_zero c a r h

/-- Witness for `C8_delay_interval` at the default policy, attempt 2,
jitter draw 1/2. -/
theorem C8_delay_interval_witness :
    DefaultRetryConfig.validate = none ∧
      ((specBase DefaultRetryConfig 2 * (1 - DefaultRetryConfig.Jitter) - 1 <
            (DefaultRetryConfig.delay 2 (1/2) : ℚ) ∧
          (DefaultRetryConfig.delay 2 (1/2) : ℚ) ≤
            specBase DefaultRetryConfig 2 * (1 + DefaultRetryConfig.Jitter)) ∧
        (DefaultRetryConfig.Jitter = 0 → DefaultRetryConfig.delay 2 (1/2) = ⌊specBase DefaultRetryConfig 2⌋) ∧
        (DefaultRetryConfig.InitialDelay = 0 → DefaultRetryConfig.delay 2 (1/2) = 0) ∧
        (DefaultRetryConfig.delay 2 (1/2) = 0 → DefaultRetryConfig.backoffWaits 2 (1/2) = false)) :=
  ⟨by norm_num [DefaultRetryConfig, RetryConfig.validate],
    C8_delay_interval DefaultRetryConfig 2 (1/2)
      (by norm_num [DefaultRetryConfig, RetryConfig.validate])
      (by norm_num) (by norm_num) (by norm_num)⟩

/-! ### Claim about the retry classifier (C4) -/

/-- Claim C4, confirmed: `shouldRetry` is false on every
`DetectionError`; false on every error whose cause chain reaches
`context.Canceled` or `context.DeadlineExceeded` no matter which stage
wrapped it; and true on every other `GenerationError`,
`ValidationError` and `SchemaError` (those carrying neither a detection
failure nor a cancellation condition in their chain). -/
theorem C4_shouldRetry_classification :
    (∀ (name : String) (cause : GoErr),
        shouldRetry (some (.detectionErr name cause)) = false) ∧
      (∀ e : GoErr, (errorsIs e .canceled = true ∨ errorsIs e .deadlineExceeded = true) →
        shouldRetry (some e) = false) ∧
      (∀ e : GoErr,
        hasDetectionErr e = false →
        errorsIs e .canceled = false →
        errorsIs e .deadlineExceeded = false →
        ((∃ c, e = .generationErr c) ∨ (∃ n c, e = .validationErr n c) ∨ (∃ c, e = .schemaErr c)) →
        shouldRetry (some e) = true) := by
  refine ⟨?_, ?_, ?_⟩
  · intro name cause
    simp [shouldRetry, hasDetectionErr]
  · intro e he
    simp only [shouldRetry]
    by_cases hd : hasDetectionErr e
    · rw [if_pos hd]
    · rw [if_neg hd, if_pos]
      rcases he with h | h <;> simp [fatalErrors, h]
  · intro e hd hc hdl _
    simp only [shouldRetry]
    rw [if_neg (by simp [hd]), if_neg]
    simp [fatalErrors, hc, hdl]

/-! ### Pipeline lemmas and claims (C3, C5, C7) -/

lemma runDetectors_all_pass (ds : List Detector) (prompt : String)
    (h : ∀ d ∈ ds, d.detect prompt = none) :
    runDetectors ds prompt = (none, ds.length) := by
  induction ds with
  | nil => rfl
  | cons d rest ih =>
    have hd : d.detect prompt = none := h d (by simp)
    have hrest := ih fun d' hd' => h d' (by simp [hd'])
    simp [runDetectors, hd, hrest]

lemma runDetectors_first_failure (pre : List Detector) (d : Detector)
    (post : List Detector) (prompt : String) (e : GoErr)
    (hpre : ∀ d' ∈ pre, d'.detect prompt = none)
    (hd : d.detect prompt = some e) :
    runDetectors (pre ++ d :: post) prompt =
      (some (.detectionErr d.name e), pre.length + 1) := by
  induction pre with
  | nil => simp [runDetectors, hd]
  | cons p rest ih =>
    have hp : p.detect prompt = none := hpre p (by simp)
    have hrest := ih fun d' hd' => hpre d' (by simp [hd'])
    simp [runDetectors, hp, hrest]

lemma runLoop_step_error (g : Guard) (fuel attempt : Nat) (lastE : Option GoErr) (e : GoErr)
    (he : attemptOutcome g attempt = .error e) (hr : shouldRetry (some e) = true) :
    runLoop g (fuel + 1) attempt lastE =
      ((runLoop g fuel (attempt + 1) (some e)).1,
        (runLoop g fuel (attempt + 1) (some e)).2 + 1) := by
  simp [runLoop, he, hr]

lemma runLoop_step_ok (g : Guard) (fuel attempt : Nat) (lastE : Option GoErr)
    (output : String) (parsed : Option StructVal)
    (hok : attemptOutcome g attempt = .ok (output, parsed)) :
    runLoop g (fuel + 1) attempt lastE =
      (.ok { Raw := output, Parsed := parsed, Attempts := (attempt : Int) + 1 }, 1) := by
  simp [runLoop, hok]

lemma runLoop_exhausts (g : Guard) (fuel : Nat) :
    ∀ (attempt : Nat) (lastE : Option GoErr) (e : GoErr),
      0 < fuel →
      (∀ i, i < fuel →
        ∃ e', attemptOutcome g (attempt + i) = .error e' ∧ shouldRetry (some e') = true) →
      attemptOutcome g (attempt + fuel - 1) = .error e →
      runLoop g fuel attempt lastE = (.error (.maxRetriesErr g.retry.MaxAttempts e), fuel) := by
  induction fuel with
  | zero => omega
  | succ n ih =>
    intro attempt lastE e _ hall hlast
    obtain ⟨e0, he0, hr0⟩ := hall 0 (by omega)
    rw [Nat.add_zero] at he0
    cases n with
    | zero =>
      have hidx : attempt + 1 - 1 = attempt := by omega
      rw [hidx, he0] at hlast
      have he : e0 = e := by simpa using hlast
      subst he
      rw [runLoop_step_error g 0 attempt lastE e0 he0 hr0]
      simp [runLoop]
    | succ m =>
      have hrec := ih (attempt + 1) (some e0) e (by omega)
        (fun i hi => by
          have hsh := hall (i + 1) (by omega)
          rwa [show attempt + (i + 1) = attempt + 1 + i from by omega] at hsh)
        (by rwa [show attempt + 1 + (m + 1) - 1 = attempt + (m + 1 + 1) - 1 from by omega])
      rw [runLoop_step_error g (m + 1) attempt lastE e0 he0 hr0, hrec]

lemma runLoop_succeeds (g : Guard) (j : Nat) :
    ∀ (fuel attempt : Nat) (lastE : Option GoErr) (output : String) (parsed : Option StructVal),
      j < fuel →
      (∀ i, i < j →
        ∃ e, attemptOutcome g (attempt + i) = .error e ∧ shouldRetry (some e) = true) →
      attemptOutcome g (attempt + j) = .ok (output, parsed) →
      runLoop g fuel attempt lastE =
        (.ok { Raw := output, Parsed := parsed, Attempts := ((attempt + j : Nat) : Int) + 1 },
          j + 1) := by
  induction j with
  | zero =>
    intro fuel attempt lastE output parsed hfuel _ hok
    cases fuel with
    | zero => omega
    | succ n =>
      rw [Nat.add_zero] at hok
      rw [runLoop_step_ok g n attempt lastE output parsed hok]
      simp
  | succ k ih =>
    intro fuel attempt lastE output parsed hfuel hall hok
    cases fuel with
    | zero => omega
    | succ n =>
      obtain ⟨e0, he0, hr0⟩ := hall 0 (by omega)
      rw [Nat.add_zero] at he0
      have hrec := ih n (attempt + 1) (some e0) output parsed (by omega)
        (fun i hi => by
          have hsh := hall (i + 1) (by omega)
          rwa [show attempt + (i + 1) = attempt + 1 + i from by omega] at hsh)
        (by rwa [show attempt + 1 + k = attempt + (k + 1) from by omega])
      rw [show attempt + 1 + k = attempt + (k + 1) from by omega] at hrec
      rw [runLoop_step_error g n attempt lastE e0 he0 hr0, hrec]

/-- Claim C3, confirmed: when the prompt is rejected by a configured
detector (the first failing one, all earlier ones passing), `Run`
returns a terminal `DetectionError` carrying that detector's name; the
detectors after the failing one are not invoked, the generation client
is invoked zero times, and no retry loop iteration happens (the outcome
is the `DetectionError` itself, never a `MaxRetriesError`). -/
theorem C3_detection_failure_short_circuits (g : Guard) (prompt : String)
    (pre post : List Detector) (d : Detector) (e : GoErr)
    (hdet : g.detectors = pre ++ d :: post)
    (hpre : ∀ d' ∈ pre, d'.detect prompt = none)
    (hd : d.detect prompt = some e) :
    g.Run prompt =
      (.error (.detectionErr d.name e),
        { detectorCalls := pre.length + 1, genCalls := 0 }) := by
  unfold Guard.Run
  rw [hdet, runDetectors_first_failure pre d post prompt e hpre hd]

/-- Witness for `C3_detection_failure_short_circuits`: a guard with one
blocking detector and a client that would answer. -/
theorem C3_detection_failure_short_circuits_witness :
    (Guard.Run
        { client := fun _ => .ok "generated"
          detectors := [{ name := "keywords",
                          detect := fun p => if p = "bad" then some (.base "blocked") else none }]
          validators := []
          schema := none
          retry := DefaultRetryConfig } "bad") =
      (.error (.detectionErr "keywords" (.base "blocked")),
        { detectorCalls := 1, genCalls := 0 }) := by
  have h := C3_detection_failure_short_circuits
    { client := fun _ => .ok "generated"
      detectors := [{ name := "keywords",
                      detect := fun p => if p = "bad" then some (.base "blocked") else none }]
      validators := []
      schema := none
      retry := DefaultRetryConfig } "bad" [] []
    { name := "keywords",
      detect := fun p => if p = "bad" then some (.base "blocked") else none }
    (.base "blocked") rfl (by simp) (by simp)
  simpa using h

/-- Claim C5, confirmed: when all detectors pass and every one of the
`MaxAttempts` attempts ends in a retryable failure, `Run` returns a
`MaxRetriesError` whose `Attempts` field is the policy's `MaxAttempts`
and whose `LastErr` is the wrapped failure of the final attempt. -/
theorem C5_retries_exhausted (g : Guard) (prompt : String) (eLast : GoErr)
    (hdet : ∀ d ∈ g.detectors, d.detect prompt = none)
    (hM : 1 ≤ g.retry.MaxAttempts)
    (hfail : ∀ i, i < g.retry.MaxAttempts.toNat →
      ∃ e, attemptOutcome g i = .error e ∧ shouldRetry (some e) = true)
    (hlast : attemptOutcome g (g.retry.MaxAttempts.toNat - 1) = .error eLast) :
    (g.Run prompt).1 = .error (.maxRetriesErr g.retry.MaxAttempts eLast) := by
  unfold Guard.Run
  rw [runDetectors_all_pass g.detectors prompt hdet]
  have h := runLoop_exhausts g g.retry.MaxAttempts.toNat 0 none eLast (by omega)
    (fun i hi => by simpa using hfail i hi)
    (by simpa using hlast)
  rw [h]

/-- Witness for `C5_retries_exhausted`: a two-attempt policy whose
validator rejects every output. -/
theorem C5_retries_exhausted_witness :
    ((Guard.Run
        { client := fun _ => .ok "bad output"
          detectors := []
          validators := [{ name := "checker", validate := fun _ => some (.base "nope") }]
          schema := none
          retry := { MaxAttempts := 2, InitialDelay := 0, MaxDelay := 0,
                     Multiplier := 1, Jitter := 0 } } "hello").1) =
      .error (.maxRetriesErr 2 (.validationErr "checker" (.base "nope"))) := by
  have h := C5_retries_exhausted
    { client := fun _ => .ok "bad output"
      detectors := []
      validators := [{ name := "checker", validate := fun _ => some (.base "nope") }]
      schema := none
      retry := { MaxAttempts := 2, InitialDelay := 0, MaxDelay := 0,
                 Multiplier := 1, Jitter := 0 } } "hello"
    (.validationErr "checker" (.base "nope"))
    (by simp) (by norm_num)
    (fun i _ => ⟨.validationErr "checker" (.base "nope"), rfl, rfl⟩)
    rfl
  simpa using h

/-- Claim C7, confirmed: when all detectors pass, attempts `1..k-1` each
end in a retryable failure, and attempt `k ≤ MaxAttempts` fully
succeeds (generation, validators and schema decode), `Run` returns a
`Result` whose `Metadata.Attempts` equals `k`. -/
theorem C7_attempt_count_on_success (g : Guard) (prompt : String) (k : Nat)
    (output : String) (parsed : Option StructVal)
    (hdet : ∀ d ∈ g.detectors, d.detect prompt = none)
    (hk1 : 1 ≤ k) (hkM : (k : Int) ≤ g.retry.MaxAttempts)
    (hfail : ∀ i, i < k - 1 →
      ∃ e, attemptOutcome g i = .error e ∧ shouldRetry (some e) = true)
    (hok : attemptOutcome g (k - 1) = .ok (output, parsed)) :
    (g.Run prompt).1 = .ok { Raw := output, Parsed := parsed, Attempts := (k : Int) } := by
  unfold Guard.Run
  rw [runDetectors_all_pass g.detectors prompt hdet]
  have hk : k - 1 < g.retry.MaxAttempts.toNat := by omega
  have h := runLoop_succeeds g (k - 1) g.retry.MaxAttempts.toNat 0 none output parsed hk
    (fun i hi => by simpa using hfail i hi)
    (by simpa using hok)
  have hA : ((0 + (k - 1) : Nat) : Int) + 1 = (k : Int) := by
    push_cast
    omega
  rw [hA] at h
  rw [h]

/-- Witness for `C7_attempt_count_on_success`: the client misbehaves on
its first call and succeeds on the second, so the run ends with attempt
count 2. -/
theorem C7_attempt_count_on_success_witness :
    ((Guard.Run
        { client := fun i => if i = 0 then .error (.base "flaky") else .ok "good"
          detectors := []
          validators := []
          schema := none
          retry := { MaxAttempts := 3, InitialDelay := 0, MaxDelay := 0,
                     Multiplier := 1, Jitter := 0 } } "hello").1) =
      .ok { Raw := "good", Parsed := none, Attempts := 2 } := by
  have h := C7_attempt_count_on_success
    { client := fun i => if i = 0 then .error (.base "flaky") else .ok "good"
      detectors := []
      validators := []
      schema := none
      retry := { MaxAttempts := 3, InitialDelay := 0, MaxDelay := 0,
                 Multiplier := 1, Jitter := 0 } } "hello" 2 "good" none
    (by simp) (by norm_num) (by norm_num)
    (fun i hi => by
      have hz : i = 0 := by omega
      subst hz
      exact ⟨.generationErr (.base "flaky"), rfl, rfl⟩)
    rfl
  simpa using h

/-- Witness for `C4_shouldRetry_classification` on one concrete error of
each kind. -/
theorem C4_shouldRetry_classification_witness :
    shouldRetry (some (.detectionErr "keywords" (.base "blocked"))) = false ∧
      shouldRetry (some (.validationErr "json" .canceled)) = false ∧
      shouldRetry (some (.generationErr (.base "boom"))) = true :=
  ⟨C4_shouldRetry_classification.1 "keywords" (.base "blocked"),
    C4_shouldRetry_classification.2.1 (.validationErr "json" .canceled) (Or.inl (by decide)),
    C4_shouldRetry_classification.2.2 (.generationErr (.base "boom"))
      (by decide) (by decide) (by decide) (Or.inl ⟨.base "boom", rfl⟩)⟩

/-! ### Claims about the structural schema (C1, C6, C9) -/

/-- The target layout of a struct with the single JSON field `name`. -/
def shapeNameOnly : List Field := [{ key := "name", type := .tstr }]

/-- One well-formed JSON value immediately followed by a close brace:
the JSON text `{"name":"x"}}`. -/
def inputTrailingBrace : String := "\x7b\"name\":\"x\"\x7d\x7d"

/-- The JSON text `{"name":"x"}GARBAGE` from the spec's example. -/
def inputTrailingGarbage : String := "\x7b\"name\":\"x\"\x7dGARBAGE"

/-- Claim C1 fails on the code: the input `{"name":"x"}}` is one
well-formed JSON value followed by the trailing non-whitespace byte
`}`, yet `Schema.Unmarshal` decodes it successfully in both strict and
non-strict mode, because `json.Decoder.More()` reports false whenever
the next non-whitespace byte is `]` or `}`.  The spec's own example
`{"name":"x"}GARBAGE` is rejected, so the trailing-content check exists
but has this gap. -/
theorem C1_trailing_close_brace_accepted :
    decodeJson inputTrailingBrace =
        some (.obj [("name", Json.str "x")], [Char.ofNat 125]) ∧
      isJsonWs (Char.ofNat 125) = false ∧
      (NewSchema shapeNameOnly).Unmarshal inputTrailingBrace = .ok [("name", .vstr "x")] ∧
      ((NewSchema shapeNameOnly).WithStrict false).Unmarshal inputTrailingBrace =
        .ok [("name", .vstr "x")] ∧
      (NewSchema shapeNameOnly).Unmarshal inputTrailingGarbage =
        .error "trailing data after JSON" :=
  ⟨rfl, rfl, rfl, rfl, rfl⟩

lemma bindMembers_unknown_errors (fields : List Field) :
    ∀ (members : List (String × Json)) (acc : StructVal),
      (∃ kv ∈ members, findField fields kv.1 = none) →
      ∃ msg, bindMembers fields true members acc = .error msg := by
  intro members
  induction members with
  | nil =>
    intro acc h
    simp at h
  | cons kv rest ih =>
    intro acc h
    obtain ⟨k, v⟩ := kv
    by_cases hk : findField fields k = none
    · exact ⟨"unknown field " ++ k, by simp [bindMembers, hk]⟩
    · obtain ⟨f, hf⟩ := Option.ne_none_iff_exists'.mp hk
      have hrest : ∃ kv ∈ rest, findField fields kv.1 = none := by
        obtain ⟨kv', hmem, hunk⟩ := h
        rcases List.mem_cons.mp hmem with heq | hmem'
        · subst heq
          exact absurd hunk hk
        · exact ⟨kv', hmem', hunk⟩
      match hc : coerceField f.type v with
      | .error msg => exact ⟨msg, by simp [bindMembers, hf, hc]⟩
      | .ok none =>
        obtain ⟨msg, hmsg⟩ := ih acc hrest
        exact ⟨msg, by simp [bindMembers, hf, hc, hmsg]⟩
      | .ok (some fv) =>
        obtain ⟨msg, hmsg⟩ := ih (setField acc f.key fv) hrest
        exact ⟨msg, by simp [bindMembers, hf, hc, hmsg]⟩

lemma bindMembers_nonstrict_ok (fields : List Field) :
    ∀ (members : List (String × Json)) (acc : StructVal),
      (∀ kv ∈ members, ∀ f, findField fields kv.1 = some f →
        ∃ ov, coerceField f.type kv.2 = .ok ov) →
      ∃ val, bindMembers fields false members acc = .ok val := by
  intro members
  induction members with
  | nil =>
    intro acc _
    exact ⟨acc, rfl⟩
  | cons kv rest ih =>
    intro acc h
    obtain ⟨k, v⟩ := kv
    have hrest := fun kv' hmem => h kv' (List.mem_cons_of_mem _ hmem)
    match hk : findField fields k with
    | none =>
      obtain ⟨val, hval⟩ := ih acc hrest
      exact ⟨val, by simp [bindMembers, hk, hval]⟩
    | some f =>
      obtain ⟨ov, hov⟩ := h (k, v) (List.mem_cons_self _ _) f hk
      match ov, hov with
      | none, hov =>
        obtain ⟨val, hval⟩ := ih acc hrest
        exact ⟨val, by simp [bindMembers, hk, hov, hval]⟩
      | some fv, hov =>
        obtain ⟨val, hval⟩ := ih (setField acc f.key fv) hrest
        exact ⟨val, by simp [bindMembers, hk, hov, hval]⟩

/-- Claim C6, confirmed: a newly constructed `Schema` is strict; in
strict mode `Unmarshal` errors on every top-level object input with a
member whose key matches no field of the captured shape; and with
strictness disabled, an input whose only defect is such unknown members
(every member whose key does match a field coerces successfully, no
trailing content) decodes successfully.  The statement is scoped to
ASCII field and key names, on which the model's field matching is
exactly the source's `bytes.EqualFold` matching; value coercion checks
the `int64` range as `strconv.ParseInt` does, so an in-range check is
part of "coerces successfully". -/
theorem C6_strict_rejects_unknown_fields (fields : List Field) (data : String)
    (members : List (String × Json)) (rest : List Char)
    (_hfAscii : ∀ f ∈ fields, isAsciiStr f.key = true)
    (_hkAscii : ∀ kv ∈ members, isAsciiStr kv.1 = true)
    (hparse : decodeJson data = some (.obj members, rest)) :
    (NewSchema fields).strict = true ∧
      ((∃ kv ∈ members, findField fields kv.1 = none) →
        ∃ msg, (NewSchema fields).Unmarshal data = .error msg) ∧
      ((∀ kv ∈ members, ∀ f, findField fields kv.1 = some f →
          ∃ ov, coerceField f.type kv.2 = .ok ov) →
        jsonMore rest = false →
        ∃ val, ((NewSchema fields).WithStrict false).Unmarshal data = .ok val) := by
  refine ⟨rfl, ?_, ?_⟩
  · intro hunk
    obtain ⟨msg, hmsg⟩ := bindMembers_unknown_errors fields members (defaults fields) hunk
    exact ⟨"failed to unmarshal JSON: " ++ msg,
      by simp [Schema.Unmarshal, hparse, decodeInto, NewSchema, hmsg]⟩
  · intro hknown hmore
    obtain ⟨val, hval⟩ := bindMembers_nonstrict_ok fields members (defaults fields) hknown
    refine ⟨val, ?_⟩
    simp [Schema.Unmarshal, hparse, decodeInto, NewSchema, Schema.WithStrict, hval, hmore]

/-- The JSON text `{"name":"x","extra":"y"}` from the spec's example. -/
def inputUnknownField : String := "\x7b\"name\":\"x\",\"extra\":\"y\"\x7d"

/-- Witness for `C6_strict_rejects_unknown_fields` at the spec's own
example input against a shape expecting only `name`. -/
theorem C6_strict_rejects_unknown_fields_witness :
    decodeJson inputUnknownField =
        some (.obj [("name", Json.str "x"), ("extra", Json.str "y")], []) ∧
      ((∃ msg, (NewSchema shapeNameOnly).Unmarshal inputUnknownField = .error msg) ∧
        (∃ val, ((NewSchema shapeNameOnly).WithStrict false).Unmarshal inputUnknownField =
          .ok val)) := by
  have h := C6_strict_rejects_unknown_fields shapeNameOnly inputUnknownField
    [("name", Json.str "x"), ("extra", Json.str "y")] []
    (by decide) (by decide) rfl
  refine ⟨rfl, h.2.1 ⟨("extra", Json.str "y"), by simp, rfl⟩, h.2.2 ?_ rfl⟩
  intro kv hmem f hf
  rcases List.mem_cons.mp hmem with heq | hmem'
  · subst heq
    have hfn : f = { key := "name", type := FieldType.tstr } := by
      have : findField shapeNameOnly "name" =
          some { key := "name", type := FieldType.tstr } := rfl
      rw [this] at hf
      simpa using hf.symm
    subst hfn
    exact ⟨some (.vstr "x"), rfl⟩
  · rcases List.mem_cons.mp hmem' with heq | hmem''
    · subst heq
      have : findField shapeNameOnly "extra" = none := rfl
      rw [this] at hf
      exact Option.noConfusion hf
    · exact absurd hmem'' (List.not_mem_nil _)

/-- Claim C9, confirmed: `Schema.Unmarshal` is a function of the input
bytes, the captured target layout and the strictness flag alone (the
source builds a fresh decoder and a fresh target instance on every
call, and reads no other state), so two decodes of the same valid text
through the same descriptor yield equal values. -/
theorem C9_unmarshal_deterministic (s1 s2 : Schema) (data : String) (v1 v2 : StructVal)
    (hf : s1.fields = s2.fields) (hs : s1.strict = s2.strict)
    (h1 : s1.Unmarshal data = .ok v1) (h2 : s2.Unmarshal data = .ok v2) :
    v1 = v2 := by
  obtain ⟨f1, st1⟩ := s1
  obtain ⟨f2, st2⟩ := s2
  cases hf
  cases hs
  rw [h1] at h2
  simpa using h2

/-- The JSON text `{"name":"x"}`. -/
def inputNameOnly : String := "\x7b\"name\":\"x\"\x7d"

/-- Witness for `C9_unmarshal_deterministic`: decoding `{"name":"x"}`
twice through the same strict descriptor. -/
theorem C9_unmarshal_deterministic_witness :
    (NewSchema shapeNameOnly).Unmarshal inputNameOnly = .ok [("name", .vstr "x")] ∧
      ([("name", FieldVal.vstr "x")] : StructVal) = [("name", FieldVal.vstr "x")] :=
  ⟨rfl,
    C9_unmarshal_deterministic (NewSchema shapeNameOnly) (NewSchema shapeNameOnly)
      inputNameOnly _ _ rfl rfl rfl rfl⟩

/-! ### Claim about option ordering (C10) -/

lemma foldl_no_schema_ops_preserves (post : List OptionCmd) :
    ∀ g : GuardCfg,
      (∀ b, OptionCmd.withStrictSchema b ∉ post) →
      (∀ fs, OptionCmd.withSchema fs ∉ post) →
      (post.foldl applyOption g).schema = g.schema := by
  induction post with
  | nil =>
    intro g _ _
    rfl
  | cons o rest ih =>
    intro g h1 h2
    have hrest1 : ∀ b, OptionCmd.withStrictSchema b ∉ rest :=
      fun b hb => h1 b (List.mem_cons_of_mem _ hb)
    have hrest2 : ∀ fs, OptionCmd.withSchema fs ∉ rest :=
      fun fs hf => h2 fs (List.mem_cons_of_mem _ hf)
    rw [List.foldl_cons, ih (applyOption g o) hrest1 hrest2]
    match o with
    | .withClient => rfl
    | .withSchema fs => exact absurd (List.mem_cons_self _ _) (h2 fs)
    | .withStrictSchema b => exact absurd (List.mem_cons_self _ _) (h1 b)

/-- Claim C10, confirmed: when `WithStrictSchema(false)` appears before
`WithSchema` in the option list (and no later option touches the
schema), the constructed Guard's schema is still strict: the earlier
`WithStrictSchema` found no schema to act on, `WithSchema` builds a new
strict one, and the reconciliation branch in `New` performs no
action. -/
theorem C10_strict_option_before_schema_is_ignored
    (pre post : List OptionCmd) (fields : List Field) (g : GuardCfg)
    (_hmem : OptionCmd.withStrictSchema false ∈ pre)
    (hpost1 : ∀ b, OptionCmd.withStrictSchema b ∉ post)
    (hpost2 : ∀ fs, OptionCmd.withSchema fs ∉ post)
    (hnew : New (pre ++ OptionCmd.withSchema fields :: post) = .ok g) :
    g.schema = some { fields := fields, strict := true } := by
  simp only [New] at hnew
  split_ifs at hnew with hc
  have hg : (pre ++ OptionCmd.withSchema fields :: post).foldl applyOption
      { hasClient := false, schema := none, strictSchema := false } = g := by
    simpa using hnew
  rw [← hg, List.foldl_append, List.foldl_cons,
    foldl_no_schema_ops_preserves post _ hpost1 hpost2]
  rfl

/-- Witness for `C10_strict_option_before_schema_is_ignored`: the option
list `[WithStrictSchema(false), WithClient, WithSchema]`. -/
theorem C10_strict_option_before_schema_is_ignored_witness :
    New [OptionCmd.withStrictSchema false, OptionCmd.withClient,
        OptionCmd.withSchema shapeNameOnly] =
      .ok { hasClient := true, schema := some { fields := shapeNameOnly, strict := true },
            strictSchema := false } ∧
      ({ hasClient := true, schema := some { fields := shapeNameOnly, strict := true },
          strictSchema := false } : GuardCfg).schema =
        some { fields := shapeNameOnly, strict := true } :=
  ⟨rfl,
    C10_strict_option_before_schema_is_ignored
      [OptionCmd.withStrictSchema false, OptionCmd.withClient] [] shapeNameOnly _
      (List.mem_cons_self _ _)
      (fun b hb => by simp at hb)
      (fun fs hf => by simp at hf)
      rfl⟩

end Railguard
